import Mathlib

/-!
Shallow embedding of the change-detection and incremental-execution engine of
the estimate-cost repository: the JSON canonicalizer and hashing scheme
(db_sync_graph/hashing.ts), the row transformer (db_sync_graph/transform.ts),
the change planner, run-status aggregation and catalog finalization
(db_sync_graph/graph.ts), and the work-queue construction and chunk
aggregation of the parallel scheduler (cost_estimator estimate/thread_pool).

JavaScript values flowing through the canonicalizer are modelled by the
inductive `JsVal`; JavaScript `Map`s by association lists with `Map`
insertion-order semantics; `null`/`undefined` by `Option`; thrown exceptions
by `Except`. JavaScript string truthiness (empty string is falsy) is modelled
explicitly where the source relies on it.
-/

namespace DbSync

/-- A JavaScript value as seen by `sortJsonValue`: primitives, `null` (also
standing for `undefined`, which the source treats identically via `== null`),
`Date` objects (carrying the string their `toISOString` returns), `BigInt`s,
arrays and plain objects (field list in insertion order). -/
inductive JsVal where
  | vNull : JsVal
  | vBool (b : Bool) : JsVal
  | vNum (n : Int) : JsVal
  | vStr (s : String) : JsVal
  | vBigInt (n : Int) : JsVal
  | vDate (iso : String) : JsVal
  | vArr (items : List JsVal) : JsVal
  | vObj (fields : List (String × JsVal)) : JsVal

/-- Key comparison used by `Object.keys(...).sort()`: lexicographic order on
the keys' character sequences (JavaScript's default sort compares strings by
code units; for the material here this coincides with lexicographic order on
the characters). -/
def fieldLE (p q : String × JsVal) : Prop := p.1.data ≤ q.1.data

instance : DecidableRel fieldLE :=
  fun p q => inferInstanceAs (Decidable (p.1.data ≤ q.1.data))

instance : IsTotal (String × JsVal) fieldLE :=
  ⟨fun p q => le_total p.1.data q.1.data⟩

instance : IsTrans (String × JsVal) fieldLE :=
  ⟨fun _ _ _ h₁ h₂ => le_trans h₁ h₂⟩

/-- Strict version of `fieldLE`, used to show that a key-sorted field list
with distinct keys is determined by its multiset of fields. -/
def fieldKeyLT (p q : String × JsVal) : Prop := p.1.data < q.1.data

/-- `Object.keys(objectValue).sort().map(...)`: sort the fields of an object
by key (stable sort; keys of a JavaScript object are unique). -/
def sortFieldsByKey (fields : List (String × JsVal)) : List (String × JsVal) :=
  fields.insertionSort fieldLE

/-- The relation `r` pulled back along a projection `f` — used to relate a
sort of projected values to a sort of the originals. -/
def pullbackRel {α β : Type} (r : β → β → Prop) (f : α → β) : α → α → Prop :=
  fun x y => r (f x) (f y)

instance {α β : Type} (r : β → β → Prop) [DecidableRel r] (f : α → β) :
    DecidableRel (pullbackRel r f) :=
  fun x y => inferInstanceAs (Decidable (r (f x) (f y)))

mutual

/-- `sortJsonValue` from db_sync_graph/hashing.ts: recursively canonicalize a
value — `null`/`undefined` to `null`, dates to their ISO string, arrays
pointwise, objects with keys sorted lexicographically, `BigInt`s to their
decimal string, primitives unchanged. -/
def sortJsonValue : JsVal → JsVal
  | .vNull => .vNull
  | .vDate iso => .vStr iso
  | .vArr items => .vArr (sortJsonList items)
  | .vObj fields => .vObj (sortFieldsByKey (sortJsonFields fields))
  | .vBigInt n => .vStr (toString n)
  | .vBool b => .vBool b
  | .vNum n => .vNum n
  | .vStr s => .vStr s

/-- Pointwise canonicalization of the elements of an array. -/
def sortJsonList : List JsVal → List JsVal
  | [] => []
  | v :: rest => sortJsonValue v :: sortJsonList rest

/-- Pointwise canonicalization of the values of an object's fields. -/
def sortJsonFields : List (String × JsVal) → List (String × JsVal)
  | [] => []
  | (k, v) :: rest => (k, sortJsonValue v) :: sortJsonFields rest

end

/-- JSON string escaping for the serializer model: quote and backslash are
escaped; this is only ever used as a deterministic function. -/
def escapeChar (c : Char) : String :=
  if c = '"' then "\\\"" else if c = '\\' then "\\\\" else String.singleton c

/-- Serialization of a string literal, with surrounding quotes. -/
def escapeString (s : String) : String :=
  "\"" ++ String.join (s.data.map escapeChar) ++ "\""

mutual

/-- Model of `JSON.stringify` on canonicalized values: `null`, booleans and
numbers print their literal form, strings are quoted and escaped, arrays and
objects print their elements/fields in list order. In the source it is only
ever applied to `sortJsonValue` output, which contains no `Date`/`BigInt`;
those constructors are serialized like the strings they canonicalize to. -/
def jsonStringify : JsVal → String
  | .vNull => "null"
  | .vBool b => cond b "true" "false"
  | .vNum n => toString n
  | .vStr s => escapeString s
  | .vBigInt n => escapeString (toString n)
  | .vDate iso => escapeString iso
  | .vArr items => "[" ++ jsonStringifyList items ++ "]"
  | .vObj fields => "\x7b" ++ jsonStringifyFields fields ++ "\x7d"

/-- Comma-separated serialization of array elements. -/
def jsonStringifyList : List JsVal → String
  | [] => ""
  | [v] => jsonStringify v
  | v :: rest => jsonStringify v ++ "," ++ jsonStringifyList rest

/-- Comma-separated serialization of object fields as `"key":value`. -/
def jsonStringifyFields : List (String × JsVal) → String
  | [] => ""
  | [(k, v)] => escapeString k ++ ":" ++ jsonStringify v
  | (k, v) :: rest => escapeString k ++ ":" ++ jsonStringify v ++ "," ++ jsonStringifyFields rest

end

/-- Modelled from the spec: the SHA-256 hex digest (`node:crypto`) is an
external collaborator, not code of this repository. It is modelled as an
ideal deterministic digest — injective, i.e. collision-free — matching the
spec's reading that distinct canonical strings yield distinct fingerprints.
The theorems below state hash-distinctness facts on the canonical pre-image
values, as the claims themselves do. -/
def sha256Hex (input : String) : String :=
  "sha256:" ++ input

/-- `stableStringify` from db_sync_graph/hashing.ts:
`JSON.stringify(sortJsonValue(value))`. -/
def stableStringify (value : JsVal) : String :=
  jsonStringify (sortJsonValue value)

/-- `ColumnInfo` from db_sync_graph/state.ts: one column of a discovered
table. `isNullable` models the `"YES"/"NO"`-derived boolean, `columnDefault`
and `pkPosition` are nullable. -/
structure ColumnInfo where
  columnName : String
  dataType : String
  isNullable : Bool
  columnDefault : Option String
  ordinalPosition : Int
  pkPosition : Option Int
deriving Repr, DecidableEq

/-- The projection applied by `computeSchemaHash` to each column: the object
`\x7bcolumn_name, data_type, is_nullable, column_default, pk_position\x7d`
(field insertion order as written in the source). The ordinal position is
not projected. -/
def projectColumn (c : ColumnInfo) : List (String × JsVal) :=
  [("column_name", .vStr c.columnName),
   ("data_type", .vStr c.dataType),
   ("is_nullable", .vBool c.isNullable),
   ("column_default", match c.columnDefault with | none => .vNull | some s => .vStr s),
   ("pk_position", match c.pkPosition with | none => .vNull | some n => .vNum n)]

/-- The comparator `(left, right) => left.ordinalPosition - right.ordinalPosition`
handed to the (stable) `Array.prototype.sort`. -/
def ordinalLE (l r : ColumnInfo) : Prop := l.ordinalPosition ≤ r.ordinalPosition

instance : DecidableRel ordinalLE :=
  fun l r => inferInstanceAs (Decidable (l.ordinalPosition ≤ r.ordinalPosition))

/-- `columns.slice().sort((l, r) => l.ordinalPosition - r.ordinalPosition)`:
a stable sort of the columns by ordinal position, modelled by insertion
sort (all stable sorts agree for a total comparator). -/
def sortColumnsByOrdinal (columns : List ColumnInfo) : List ColumnInfo :=
  columns.insertionSort ordinalLE

/-- The canonical projected array built inside `computeSchemaHash`: columns
sorted by ordinal position, each projected to its five hashed fields. -/
def canonicalSchema (columns : List ColumnInfo) : List JsVal :=
  (sortColumnsByOrdinal columns).map (fun c => JsVal.vObj (projectColumn c))

/-- `computeSchemaHash` from db_sync_graph/hashing.ts: the fingerprint of the
canonical projected column array. -/
def computeSchemaHash (columns : List ColumnInfo) : String :=
  sha256Hex (stableStringify (.vArr (canonicalSchema columns)))

/-- `computeTableHash` from db_sync_graph/hashing.ts: fingerprint of the
object with exactly the four content-proxy fields. -/
def computeTableHash (schemaHash : String) (rowCount : Int)
    (maxUpdatedAt : Option String) (maxPkLexicographic : Option String) : String :=
  sha256Hex (stableStringify (.vObj
    [("schema_hash", .vStr schemaHash),
     ("row_count", .vNum rowCount),
     ("max_updated_at", match maxUpdatedAt with | none => .vNull | some s => .vStr s),
     ("max_pk_lexicographic", match maxPkLexicographic with | none => .vNull | some s => .vStr s)]))

/-- `computeRowHash` from db_sync_graph/hashing.ts. -/
def computeRowHash (row : List (String × JsVal)) : String :=
  sha256Hex (stableStringify (.vObj row))

/-! ## Row transformer (db_sync_graph/transform.ts) -/

/-- `TextColumnsMode` from db_sync_graph/state.ts. -/
inductive TextColumnsMode where
  | auto : TextColumnsMode
  | all : TextColumnsMode
deriving Repr, DecidableEq

/-- `TableInfo` from db_sync_graph/state.ts. -/
structure TableInfo where
  schema : String
  table : String
  columns : List ColumnInfo
  pkColumns : List String
  updatedAtColumn : Option String
deriving Repr, DecidableEq

/-- `TEXTUAL_DATA_TYPES` from db_sync_graph/transform.ts. -/
def TEXTUAL_DATA_TYPES : List String :=
  ["text", "character varying", "varchar", "character", "char", "citext",
   "json", "jsonb", "uuid"]

/-- `String.prototype.toLowerCase`, modelled character-wise (ASCII case
mapping) by structural recursion so that concrete inputs evaluate. -/
def jsToLower (s : String) : String :=
  ⟨s.data.map Char.toLower⟩

/-- `String.prototype.includes`: substring occurrence, by structural
recursion on the haystack. -/
def containsSub (needle : List Char) : List Char → Bool
  | [] => needle.isEmpty
  | c :: rest => needle.isPrefixOf (c :: rest) || containsSub needle rest

/-- `isTextualColumn`: the lowercased data type contains one of the known
textual types as a substring. -/
def isTextualColumn (dataType : String) : Bool :=
  TEXTUAL_DATA_TYPES.any (fun candidate => containsSub candidate.data (jsToLower dataType).data)

/-- `normalizeValue` from db_sync_graph/transform.ts: `null`/`undefined` to
the empty string, dates to ISO, objects and arrays to their canonical JSON
string, everything else to its JavaScript string conversion. -/
def normalizeValue : JsVal → String
  | .vNull => ""
  | .vDate iso => iso
  | .vObj fields => stableStringify (.vObj fields)
  | .vArr items => stableStringify (.vArr items)
  | .vStr s => s
  | .vNum n => toString n
  | .vBigInt n => toString n
  | .vBool b => cond b "true" "false"

/-- A database row, modelled as a JavaScript object: fields in insertion
order with unique keys. `row[name]` is `rowGet row name` (`none` is
`undefined`). -/
def rowGet (row : List (String × JsVal)) (name : String) : Option JsVal :=
  (row.find? (fun p => p.1 == name)).map (fun p => p.2)

/-- `selectPageContentColumns`: columns not in the (lowercased) excluded set,
restricted to textual columns unless the mode is `all`, projected to their
names. -/
def selectPageContentColumns (tableInfo : TableInfo) (textColumnsMode : TextColumnsMode)
    (excludedColumns : List String) : List String :=
  (((tableInfo.columns.filter
      (fun column => !(excludedColumns.contains (jsToLower column.columnName)))).filter
      (fun column => match textColumnsMode with
        | .all => true
        | .auto => isTextualColumn column.dataType)).map
      (fun column => column.columnName))

/-- The per-column lines built inside `createPageContent`: one
`"name: value"` line per selected column with a non-empty normalized value. -/
def pageContentLines (row : List (String × JsVal)) (tableInfo : TableInfo)
    (textColumnsMode : TextColumnsMode) (excludedColumns : List String) : List String :=
  ((selectPageContentColumns tableInfo textColumnsMode excludedColumns).map
    (fun columnName =>
      let normalized := normalizeValue ((rowGet row columnName).getD .vNull)
      if normalized.length > 0 then columnName ++ ": " ++ normalized else "")).filter
    (fun line => line.length > 0)

/-- `createPageContent` from db_sync_graph/transform.ts: the joined lines, or
the whole-row fallback `"[schema.table] <canonical row>"` when no line was
produced. -/
def createPageContent (row : List (String × JsVal)) (tableInfo : TableInfo)
    (textColumnsMode : TextColumnsMode) (excludedColumns : List String) : String :=
  let lines := pageContentLines row tableInfo textColumnsMode excludedColumns
  if lines.length > 0 then
    String.intercalate "\n" lines
  else
    "[" ++ tableInfo.schema ++ "." ++ tableInfo.table ++ "] " ++ stableStringify (.vObj row)

/-- `extractPrimaryKey`: collect the primary-key sub-object of the row in
key order; missing columns raise `MissingPrimaryKeyColumn`. -/
def extractPrimaryKeyAux (row : List (String × JsVal)) (tableInfo : TableInfo) :
    List String → Except String (List (String × JsVal))
  | [] => .ok []
  | col :: rest =>
    match rowGet row col with
    | none =>
      .error ("Missing PK column " ++ col ++ " in " ++ tableInfo.schema ++ "." ++ tableInfo.table)
    | some v =>
      (extractPrimaryKeyAux row tableInfo rest).map (fun tail => (col, v) :: tail)

/-- `extractPrimaryKey` from db_sync_graph/transform.ts. -/
def extractPrimaryKey (row : List (String × JsVal)) (tableInfo : TableInfo) :
    Except String (List (String × JsVal)) :=
  extractPrimaryKeyAux row tableInfo tableInfo.pkColumns

/-- `buildDocId` from db_sync_graph/transform.ts:
`sha256Hex("{schema}.{table}|" + stableStringify(primaryKey))`. -/
def buildDocId (schema table : String) (primaryKey : List (String × JsVal)) : String :=
  sha256Hex (schema ++ "." ++ table ++ "|" ++ stableStringify (.vObj primaryKey))

/-- The metadata attached to a transformed document. -/
structure DocMetadata where
  schema : String
  table : String
  pk : List (String × JsVal)
  pk_hash : String
  updated_at : Option String
  row_hash : String
  run_id : String

/-- A LangChain `Document` as produced by the transformer. -/
structure Document where
  pageContent : String
  metadata : DocMetadata

/-- The `\x7bdocId, document\x7d` pair returned by the transformer. -/
structure DbSyncDocument where
  docId : String
  document : Document

/-- `transformRowToDocument` from db_sync_graph/transform.ts. The
`updated_at` metadata models `normalizeValue(row[col]) || null` (empty
string is falsy). -/
def transformRowToDocument (row : List (String × JsVal)) (tableInfo : TableInfo)
    (runId : String) (textColumnsMode : TextColumnsMode) (excludedColumns : List String) :
    Except String DbSyncDocument :=
  let excludedLower := excludedColumns.map jsToLower
  match extractPrimaryKey row tableInfo with
  | .error e => .error e
  | .ok primaryKey =>
    let primaryKeyHash := sha256Hex (stableStringify (.vObj primaryKey))
    let rowHash := computeRowHash row
    let pageContent := createPageContent row tableInfo textColumnsMode excludedLower
    let updatedAt :=
      match tableInfo.updatedAtColumn with
      | some col =>
        let normalized := normalizeValue ((rowGet row col).getD .vNull)
        if normalized = "" then none else some normalized
      | none => none
    let docId := buildDocId tableInfo.schema tableInfo.table primaryKey
    .ok ⟨docId,
      ⟨pageContent,
       ⟨tableInfo.schema, tableInfo.table, primaryKey, primaryKeyHash, updatedAt, rowHash, runId⟩⟩⟩

/-! ## Change planner, run status and catalog finalization
(db_sync_graph/graph.ts, db_sync_graph/state.ts) -/

/-- `TableMode` from db_sync_graph/state.ts. -/
inductive TableMode where
  | full : TableMode
  | skip : TableMode
deriving Repr, DecidableEq

/-- `TableResultStatus` from db_sync_graph/state.ts. -/
inductive TableResultStatus where
  | reindexed : TableResultStatus
  | skipped : TableResultStatus
  | failed : TableResultStatus
deriving Repr, DecidableEq

/-- `RunStatus` from db_sync_graph/state.ts (`partial_success` is spelled
`partialSuccess`). -/
inductive RunStatus where
  | running : RunStatus
  | success : RunStatus
  | partialSuccess : RunStatus
  | failed : RunStatus
deriving Repr, DecidableEq

/-- `ControlCatalogRecord` from db_sync_graph/state.ts. -/
structure ControlCatalogRecord where
  schema : String
  table : String
  schema_hash : String
  table_hash : String
  row_count : Int
  max_updated_at : Option String
  last_success_run_id : Option String
  last_success_at : Option String
  last_mode : Option TableMode
  last_error : Option String
deriving Repr, DecidableEq

/-- `TablePlan` from db_sync_graph/state.ts. -/
structure TablePlan where
  schema : String
  table : String
  mode : TableMode
  reason : String
deriving Repr, DecidableEq

/-- `TableRunResult` from db_sync_graph/state.ts. -/
structure TableRunResult where
  schema : String
  table : String
  mode : TableMode
  status : TableResultStatus
  rowsUpserted : Int
  error : Option String
deriving Repr, DecidableEq

/-- `TableSnapshot` from db_sync_graph/state.ts. -/
structure TableSnapshot where
  schema : String
  table : String
  rowCount : Int
  maxUpdatedAt : Option String
  maxPkLexicographic : Option String
  schemaHash : String
  tableHash : String
deriving Repr, DecidableEq

/-- `RunError` from db_sync_graph/state.ts. -/
structure RunError where
  tableKey : String
  message : String
deriving Repr, DecidableEq

/-- `RunSummary` from db_sync_graph/state.ts. -/
structure RunSummary where
  tablesTotal : Nat
  tablesReindexed : Nat
  tablesSkipped : Nat
  rowsUpserted : Int
  errors : List RunError
deriving Repr, DecidableEq

/-- `defaultRunSummary` from db_sync_graph/state.ts. -/
def defaultRunSummary : RunSummary :=
  ⟨0, 0, 0, 0, []⟩

/-- JavaScript truthiness of a nullable string: `null`/`undefined` and the
empty string are falsy. -/
def jsStrTruthy : Option String → Bool
  | none => false
  | some s => s ≠ ""

/-- The JavaScript expression `x || null` for a nullable string `x`: a falsy
value (here: `null` or the empty string) becomes `null`. -/
def jsOrNull : Option String → Option String
  | none => none
  | some s => if s = "" then none else some s

/-- `getTableModeReason` from db_sync_graph/graph.ts: the hash-comparison
part of the planner. -/
def getTableModeReason (previousCatalog : Option ControlCatalogRecord)
    (schemaHash tableHash : String) : TableMode × String :=
  match previousCatalog with
  | none => (.full, "no_previous_catalog")
  | some prev =>
    if prev.schema_hash ≠ schemaHash then (.full, "schema_hash_changed")
    else if prev.table_hash ≠ tableHash then (.full, "table_hash_changed")
    else (.skip, "table_hash_unchanged")

/-- `decideTableMode` from db_sync_graph/graph.ts: tables without a primary
key are skipped before any hash comparison. -/
def decideTableMode (previousCatalog : Option ControlCatalogRecord)
    (schemaHash tableHash : String) (hasPrimaryKey : Bool) : TableMode × String :=
  if !hasPrimaryKey then (.skip, "skipped_no_pk")
  else getTableModeReason previousCatalog schemaHash tableHash

/-- `computeRunStatus` from db_sync_graph/graph.ts. The source tests
`if (params.fatalError)`, i.e. JavaScript truthiness of the nullable
string. -/
def computeRunStatus (fatalError : Option String) (tableResults : List TableRunResult) :
    RunStatus :=
  if jsStrTruthy fatalError then .failed
  else if tableResults.any (fun result => result.status == .failed) then .partialSuccess
  else .success

/-- The loop body of `summarizeRun`: fold one result into the summary. -/
def summarizeStep (summary : RunSummary) (result : TableRunResult) : RunSummary :=
  match result.status with
  | .reindexed =>
    { summary with
      tablesReindexed := summary.tablesReindexed + 1
      rowsUpserted := summary.rowsUpserted + result.rowsUpserted }
  | .skipped => { summary with tablesSkipped := summary.tablesSkipped + 1 }
  | .failed =>
    { summary with
      errors := summary.errors ++
        [⟨result.schema ++ "." ++ result.table,
          match jsOrNull result.error with
          | some message => message
          | none => "unknown_table_error"⟩] }

/-- `summarizeRun` from db_sync_graph/graph.ts: start from the default
summary with `tablesTotal` set to the plan count, then fold over the
results in order. The pushed error message is `result.error ||
"unknown_table_error"` (JavaScript truthiness). -/
def summarizeRun (tablePlans : List TablePlan) (tableResults : List TableRunResult) :
    RunSummary :=
  tableResults.foldl summarizeStep { defaultRunSummary with tablesTotal := tablePlans.length }

/-- `executePlansWithHandler` from db_sync_graph/graph.ts. The per-table
handler `onFullTable` models the `async` handler: `.ok n` is a resolved
promise with row count `n`, `.error e` a thrown error with message `e`
(already passed through `errorMessage`). Besides the result list the
embedding also returns the trace of plans the handler was invoked on, to
make "no handler call for skipped plans" observable. -/
def executePlansWithHandler (tablePlans : List TablePlan)
    (onFullTable : TablePlan → Except String Int) :
    List TableRunResult × List TablePlan :=
  match tablePlans with
  | [] => ([], [])
  | tablePlan :: rest =>
    let (restResults, restCalls) := executePlansWithHandler rest onFullTable
    if tablePlan.mode = .skip then
      (⟨tablePlan.schema, tablePlan.table, tablePlan.mode, .skipped, 0, none⟩ :: restResults,
       restCalls)
    else
      match onFullTable tablePlan with
      | .ok rowsUpserted =>
        (⟨tablePlan.schema, tablePlan.table, tablePlan.mode, .reindexed, rowsUpserted, none⟩
           :: restResults,
         tablePlan :: restCalls)
      | .error e =>
        (⟨tablePlan.schema, tablePlan.table, tablePlan.mode, .failed, 0, some e⟩ :: restResults,
         tablePlan :: restCalls)

/-- `buildCatalogRecord` from db_sync_graph/graph.ts. `result` is the
table's `TableRunResult` if one exists, `existing` the previous catalog
record. `tableSucceeded` is `!failedResult && !fatalError &&
Boolean(result)`; the `|| null` on the carried-forward fields is JavaScript
falsiness, `result?.mode ?? existing?.last_mode ?? null` is nullish
coalescing. -/
def buildCatalogRecord (snapshot : TableSnapshot) (result : Option TableRunResult)
    (existing : Option ControlCatalogRecord) (runId : String) (finishedAt : String)
    (fatalError : Option String) : ControlCatalogRecord :=
  let failedResult : Bool :=
    match result with
    | some r => r.status == .failed
    | none => false
  let tableSucceeded : Bool := !failedResult && !(jsStrTruthy fatalError) && result.isSome
  { schema := snapshot.schema
    table := snapshot.table
    schema_hash := snapshot.schemaHash
    table_hash := snapshot.tableHash
    row_count := snapshot.rowCount
    max_updated_at := snapshot.maxUpdatedAt
    last_success_run_id :=
      if tableSucceeded then some runId
      else jsOrNull (existing.bind (fun e => e.last_success_run_id))
    last_success_at :=
      if tableSucceeded then some finishedAt
      else jsOrNull (existing.bind (fun e => e.last_success_at))
    last_mode :=
      match result with
      | some r => some r.mode
      | none => existing.bind (fun e => e.last_mode)
    last_error :=
      if failedResult then result.bind (fun r => r.error)
      else fatalError }

/-! ## Parallel work scheduler (cost_estimator thread_pool) -/

/-- `Map.get`: first binding of the key, if any. -/
def jsMapGet {α : Type} (m : List (String × α)) (k : String) : Option α :=
  (m.find? (fun p => p.1 == k)).map (fun p => p.2)

/-- `Map.set`: replace in place if the key is present, append otherwise
(JavaScript `Map` preserves insertion order). -/
def jsMapSet {α : Type} (m : List (String × α)) (k : String) (v : α) : List (String × α) :=
  if m.any (fun p => p.1 == k) then
    m.map (fun p => if p.1 == k then (k, v) else p)
  else
    m ++ [(k, v)]

/-- `Map.delete`. -/
def jsMapDelete {α : Type} (m : List (String × α)) (k : String) : List (String × α) :=
  m.filter (fun p => p.1 ≠ k)

/-- `TableTokenEstimate` from cost_estimator thread_pool. -/
structure TableTokenEstimate where
  schema : String
  table : String
  rowCount : Int
  tokenCount : Int
deriving Repr, DecidableEq

/-- A chunk-result message (`msg.data` of a `chunk-result` worker
response). -/
structure ChunkResultMsg where
  schema : String
  table : String
  chunkId : String
  rowCount : Int
  tokenCount : Int
deriving Repr, DecidableEq

/-- `ChunkAggregator` from cost_estimator thread_pool: partial chunk results
keyed by chunk id, in arrival order. -/
structure ChunkAggregator where
  schema : String
  table : String
  totalChunks : Int
  received : List (String × (Int × Int))
deriving Repr, DecidableEq

/-- `handleChunkResult` from cost_estimator thread_pool: record the chunk
result in the table's aggregator (created on first arrival with the expected
chunk count, defaulting to 1); when the number of received chunk results
reaches the expected count, sum the partial row/token counts, drop the
aggregator entry and emit the table-complete aggregate. -/
def handleChunkResult (chunkCounts : List (String × Int))
    (aggregators : List (String × ChunkAggregator)) (data : ChunkResultMsg) :
    List (String × ChunkAggregator) × Option TableTokenEstimate :=
  let key := data.schema ++ "." ++ data.table
  let totalChunks := (jsMapGet chunkCounts key).getD 1
  let agg := (jsMapGet aggregators key).getD ⟨data.schema, data.table, totalChunks, []⟩
  let agg := { agg with
    received := jsMapSet agg.received data.chunkId (data.rowCount, data.tokenCount) }
  if (agg.received.length : Int) = agg.totalChunks then
    let totalRows := (agg.received.map (fun p => p.2.1)).sum
    let totalTokens := (agg.received.map (fun p => p.2.2)).sum
    (jsMapDelete aggregators key, some ⟨agg.schema, agg.table, totalRows, totalTokens⟩)
  else
    (jsMapSet aggregators key agg, none)

/-- The coordinator's single-threaded message loop restricted to
chunk-result messages: process them one at a time in arrival order,
collecting the emitted table-complete aggregates. -/
def processChunks (chunkCounts : List (String × Int))
    (aggregators : List (String × ChunkAggregator)) :
    List ChunkResultMsg → List (String × ChunkAggregator) × List TableTokenEstimate
  | [] => (aggregators, [])
  | msg :: rest =>
    let step := handleChunkResult chunkCounts aggregators msg
    let restOut := processChunks chunkCounts step.1 rest
    (restOut.1, step.2.toList ++ restOut.2)

/-- A work-queue item from cost_estimator thread_pool: a whole table or a
chunk of a large table. -/
inductive QueueItem where
  | table (tableInfo : TableInfo) : QueueItem
  | chunk (tableInfo : TableInfo) (chunkId : String) (offsetStart rowLimit : Int)
      (tableKey : String) : QueueItem
deriving Repr, DecidableEq

/-- `Math.ceil(rowCount / chunkSize)` for integer operands (the guard of the
chunking branch ensures `chunkSize > 0`, and row counts are non-negative). -/
def numChunksFor (rowCount chunkSize : Int) : Int :=
  (rowCount + chunkSize - 1) / chunkSize

/-- The chunk work-items pushed for one large table. -/
def chunkItemsFor (tableInfo : TableInfo) (key : String) (chunkSize : Int)
    (numChunks : Int) : List QueueItem :=
  (List.range numChunks.toNat).map (fun i : Nat =>
    QueueItem.chunk tableInfo (key ++ "#" ++ toString i) (Int.ofNat i * chunkSize)
      chunkSize key)

/-- `buildQueue` from cost_estimator thread_pool: per table (in order), look
up its row count (`?? 0` when absent); a table with `rowCount >=
largeTableThreshold && chunkSize > 0` is split into
`Math.ceil(rowCount / chunkSize)` chunk items and its expected chunk count
recorded, any other table is enqueued as a single whole-table item. -/
def buildQueue (tables : List TableInfo) (rowCounts : List (String × Int))
    (largeTableThreshold chunkSize : Int) : List QueueItem × List (String × Int) :=
  match tables with
  | [] => ([], [])
  | tableInfo :: rest =>
    let key := tableInfo.schema ++ "." ++ tableInfo.table
    let rowCount := (jsMapGet rowCounts key).getD 0
    let restOut := buildQueue rest rowCounts largeTableThreshold chunkSize
    if rowCount ≥ largeTableThreshold ∧ chunkSize > 0 then
      let numChunks := numChunksFor rowCount chunkSize
      (chunkItemsFor tableInfo key chunkSize numChunks ++ restOut.1,
       (key, numChunks) :: restOut.2)
    else
      (QueueItem.table tableInfo :: restOut.1, restOut.2)

/-! ## Key-order equivalence of nested values -/

mutual

/-- Two values are equal up to the insertion order of object keys at every
nesting level: primitives must be identical, arrays pointwise equivalent in
the same order, and objects must have field lists that, after matching keys
pointwise with equivalent values, are permutations of one another (a
JavaScript object has no duplicate keys, hence the `Nodup` side condition on
the key list). -/
inductive KeyEquiv : JsVal → JsVal → Prop where
  | vnull : KeyEquiv .vNull .vNull
  | vbool (b : Bool) : KeyEquiv (.vBool b) (.vBool b)
  | vnum (n : Int) : KeyEquiv (.vNum n) (.vNum n)
  | vstr (s : String) : KeyEquiv (.vStr s) (.vStr s)
  | vbigint (n : Int) : KeyEquiv (.vBigInt n) (.vBigInt n)
  | vdate (iso : String) : KeyEquiv (.vDate iso) (.vDate iso)
  | varr {l₁ l₂ : List JsVal} : KeyEquivList l₁ l₂ → KeyEquiv (.vArr l₁) (.vArr l₂)
  | vobj {l₁ l₂ l₃ : List (String × JsVal)} :
      KeyEquivFields l₁ l₂ → l₂.Perm l₃ → (l₁.map Prod.fst).Nodup →
      KeyEquiv (.vObj l₁) (.vObj l₃)

/-- Pointwise `KeyEquiv` on array elements (order significant). -/
inductive KeyEquivList : List JsVal → List JsVal → Prop where
  | nil : KeyEquivList [] []
  | cons {v w : JsVal} {l₁ l₂ : List JsVal} :
      KeyEquiv v w → KeyEquivList l₁ l₂ → KeyEquivList (v :: l₁) (w :: l₂)

/-- Pointwise `KeyEquiv` on object fields: same keys in the same order,
equivalent values. -/
inductive KeyEquivFields : List (String × JsVal) → List (String × JsVal) → Prop where
  | nil : KeyEquivFields [] []
  | cons {k : String} {v w : JsVal} {l₁ l₂ : List (String × JsVal)} :
      KeyEquiv v w → KeyEquivFields l₁ l₂ → KeyEquivFields ((k, v) :: l₁) ((k, w) :: l₂)

end

/-- Verification helper: the `TableRunResult` produced for one plan by
`executePlansWithHandler`. -/
def resultForPlan (onFullTable : TablePlan → Except String Int)
    (tablePlan : TablePlan) : TableRunResult :=
  if tablePlan.mode = .skip then
    ⟨tablePlan.schema, tablePlan.table, tablePlan.mode, .skipped, 0, none⟩
  else
    match onFullTable tablePlan with
    | .ok rowsUpserted =>
      ⟨tablePlan.schema, tablePlan.table, tablePlan.mode, .reindexed, rowsUpserted, none⟩
    | .error e => ⟨tablePlan.schema, tablePlan.table, tablePlan.mode, .failed, 0, some e⟩

/-- The aggregator entry recorded for one chunk-result message. -/
def chunkEntry (m : ChunkResultMsg) : String × (Int × Int) :=
  (m.chunkId, (m.rowCount, m.tokenCount))

/-! ## Theorems -/

theorem jsOrNull_of_ne_empty (x : Option String) (h : x ≠ some "") : jsOrNull x = x := by
  cases x with
  | none => rfl
  | some s =>
    have : s ≠ "" := by intro hcontra; exact h (by rw [hcontra])
    simp [jsOrNull, this]

theorem executePlans_eq (tablePlans : List TablePlan)
    (onFullTable : TablePlan → Except String Int) :
    executePlansWithHandler tablePlans onFullTable
      = (tablePlans.map (resultForPlan onFullTable),
         tablePlans.filter (fun plan => plan.mode == TableMode.full)) := by
  induction tablePlans with
  | nil => rfl
  | cons plan rest ih =>
    simp only [executePlansWithHandler, ih, List.map_cons, List.filter_cons]
    cases hmode : plan.mode with
    | skip => simp [resultForPlan, hmode]
    | full =>
      cases hcall : onFullTable plan <;> simp [resultForPlan, hmode, hcall]

/-- C1: `decideTableMode` applies the planner rules in strict top-to-bottom
precedence: no primary key yields `skip/skipped_no_pk` regardless of hashes
and catalog; otherwise a missing previous catalog record yields
`full/no_previous_catalog`; otherwise a differing previous `schema_hash`
yields `full/schema_hash_changed` even when the table hash matches;
otherwise a differing `table_hash` yields `full/table_hash_changed`;
otherwise `skip/table_hash_unchanged`. -/
theorem decideTableMode_precedence (previousCatalog : Option ControlCatalogRecord)
    (schemaHash tableHash : String) (hasPrimaryKey : Bool) :
    (hasPrimaryKey = false →
      decideTableMode previousCatalog schemaHash tableHash hasPrimaryKey
        = (.skip, "skipped_no_pk")) ∧
    (hasPrimaryKey = true → previousCatalog = none →
      decideTableMode previousCatalog schemaHash tableHash hasPrimaryKey
        = (.full, "no_previous_catalog")) ∧
    (∀ prev, hasPrimaryKey = true → previousCatalog = some prev →
      prev.schema_hash ≠ schemaHash →
      decideTableMode previousCatalog schemaHash tableHash hasPrimaryKey
        = (.full, "schema_hash_changed")) ∧
    (∀ prev, hasPrimaryKey = true → previousCatalog = some prev →
      prev.schema_hash = schemaHash → prev.table_hash ≠ tableHash →
      decideTableMode previousCatalog schemaHash tableHash hasPrimaryKey
        = (.full, "table_hash_changed")) ∧
    (∀ prev, hasPrimaryKey = true → previousCatalog = some prev →
      prev.schema_hash = schemaHash → prev.table_hash = tableHash →
      decideTableMode previousCatalog schemaHash tableHash hasPrimaryKey
        = (.skip, "table_hash_unchanged")) := by
  refine ⟨?_, ?_, ?_, ?_, ?_⟩
  · intro h; subst h; rfl
  · intro h h2; subst h; subst h2; rfl
  · intro prev h h2 h3; subst h; subst h2
    simp [decideTableMode, getTableModeReason, h3]
  · intro prev h h2 h3 h4; subst h; subst h2
    simp [decideTableMode, getTableModeReason, h3, h4]
  · intro prev h h2 h3 h4; subst h; subst h2
    simp [decideTableMode, getTableModeReason, h3, h4]

theorem decideTableMode_precedence_witness :
    decideTableMode
        (some ⟨"public", "users", "h1", "t1", 0, none, none, none, none, none⟩)
        "h2" "t1" true
      = (TableMode.full, "schema_hash_changed") :=
  (decideTableMode_precedence _ _ _ _).2.2.1 _ rfl rfl (by decide)

/-- C5: `executePlansWithHandler` returns exactly one result per plan in
plan order; a `skip` plan yields `skipped` with zero rows and no handler
call (the handler-call trace contains exactly the `full` plans); a `full`
plan yields `reindexed` with the handler's row count on success and
`failed` with zero rows and the error message when the handler throws; a
failure for one table does not stop the remaining tables (every later plan
still gets its result). -/
theorem executePlansWithHandler_per_plan (tablePlans : List TablePlan)
    (onFullTable : TablePlan → Except String Int) :
    (executePlansWithHandler tablePlans onFullTable).1.length = tablePlans.length ∧
    (∀ i (hi : i < tablePlans.length)
        (hi2 : i < (executePlansWithHandler tablePlans onFullTable).1.length),
      ((tablePlans[i].mode = TableMode.skip →
        (executePlansWithHandler tablePlans onFullTable).1[i]
          = ⟨tablePlans[i].schema, tablePlans[i].table,
             tablePlans[i].mode, .skipped, 0, none⟩) ∧
      (∀ n, tablePlans[i].mode = TableMode.full →
        onFullTable tablePlans[i] = .ok n →
        (executePlansWithHandler tablePlans onFullTable).1[i]
          = ⟨tablePlans[i].schema, tablePlans[i].table,
             tablePlans[i].mode, .reindexed, n, none⟩) ∧
      (∀ e, tablePlans[i].mode = TableMode.full →
        onFullTable tablePlans[i] = .error e →
        (executePlansWithHandler tablePlans onFullTable).1[i]
          = ⟨tablePlans[i].schema, tablePlans[i].table,
             tablePlans[i].mode, .failed, 0, some e⟩))) ∧
    (executePlansWithHandler tablePlans onFullTable).2
      = tablePlans.filter (fun plan => plan.mode == TableMode.full) := by
  refine ⟨by rw [executePlans_eq]; simp, ?_, by rw [executePlans_eq]⟩
  intro i hi hi2
  refine ⟨?_, ?_, ?_⟩
  · intro hmode
    simp [executePlans_eq, resultForPlan, hmode]
  · intro n hmode hcall
    simp [executePlans_eq, resultForPlan, hmode, hcall]
  · intro e hmode hcall
    simp [executePlans_eq, resultForPlan, hmode, hcall]

theorem executePlansWithHandler_per_plan_witness :
    (executePlansWithHandler
        [⟨"public", "users", .full, "no_previous_catalog"⟩,
         ⟨"public", "orders", .skip, "table_hash_unchanged"⟩]
        (fun _ => Except.ok 5)).1.get ⟨0, by decide⟩
      = ⟨"public", "users", TableMode.full, .reindexed, 5, none⟩ :=
  ((executePlansWithHandler_per_plan
      [⟨"public", "users", .full, "no_previous_catalog"⟩,
       ⟨"public", "orders", .skip, "table_hash_unchanged"⟩]
      (fun _ => Except.ok 5)).2.1 0 (by decide) (by decide)).2.1 5 rfl rfl

/-- C6 counterexample: the claim says `computeRunStatus` returns `failed`
whenever the fatal error is non-null, but the source tests JavaScript
truthiness, so the (non-null) empty-string fatal error is treated as no
fatal error and the run is reported as a success. -/
theorem computeRunStatus_empty_fatal_counterexample :
    (some "" : Option String) ≠ none ∧
    computeRunStatus (some "") [] = RunStatus.success := by
  exact ⟨by simp, by decide⟩

theorem summarize_foldl (tableResults : List TableRunResult) (acc : RunSummary) :
    List.foldl summarizeStep acc tableResults =
      ⟨acc.tablesTotal,
       acc.tablesReindexed
         + (tableResults.filter (fun r => r.status == TableResultStatus.reindexed)).length,
       acc.tablesSkipped
         + (tableResults.filter (fun r => r.status == TableResultStatus.skipped)).length,
       acc.rowsUpserted
         + ((tableResults.filter (fun r => r.status == TableResultStatus.reindexed)).map
             (fun r => r.rowsUpserted)).sum,
       acc.errors ++ (tableResults.filter (fun r => r.status == TableResultStatus.failed)).map
         (fun r => ⟨r.schema ++ "." ++ r.table,
           match jsOrNull r.error with
           | some message => message
           | none => "unknown_table_error"⟩)⟩ := by
  induction tableResults generalizing acc with
  | nil => simp
  | cons r rest ih =>
    rw [List.foldl_cons, ih]
    cases hs : r.status <;>
      simp [summarizeStep, hs, List.filter_cons, RunSummary.mk.injEq, add_assoc, add_comm,
        add_left_comm]

/-- C6 (amended): `computeRunStatus` returns `failed` if the fatal error is
truthy (non-null and non-empty — a null or empty-string fatal error is
falsy), else `partial_success` if at least one table result has status
`failed`, else `success`; and `summarizeRun` counts each reindexed table in
`tablesReindexed`, sums the reindexed tables' `rowsUpserted`, and produces
exactly one `errors` entry per failed table. -/
theorem computeRunStatus_summarizeRun_spec (fatalError : Option String)
    (tablePlans : List TablePlan) (tableResults : List TableRunResult) :
    (jsStrTruthy fatalError = true → computeRunStatus fatalError tableResults = .failed) ∧
    (jsStrTruthy fatalError = false → (∃ r ∈ tableResults, r.status = .failed) →
      computeRunStatus fatalError tableResults = .partialSuccess) ∧
    (jsStrTruthy fatalError = false → (∀ r ∈ tableResults, r.status ≠ .failed) →
      computeRunStatus fatalError tableResults = .success) ∧
    (summarizeRun tablePlans tableResults).tablesReindexed
      = (tableResults.filter (fun r => r.status == TableResultStatus.reindexed)).length ∧
    (summarizeRun tablePlans tableResults).rowsUpserted
      = ((tableResults.filter (fun r => r.status == TableResultStatus.reindexed)).map
          (fun r => r.rowsUpserted)).sum ∧
    (summarizeRun tablePlans tableResults).errors.length
      = (tableResults.filter (fun r => r.status == TableResultStatus.failed)).length := by
  refine ⟨?_, ?_, ?_, ?_, ?_, ?_⟩
  · intro h; simp [computeRunStatus, h]
  · intro h hex
    have hany : tableResults.any (fun result => result.status == TableResultStatus.failed)
        = true := by
      rcases hex with ⟨r, hr, hstatus⟩
      exact List.any_eq_true.mpr ⟨r, hr, by simp [hstatus]⟩
    simp [computeRunStatus, h, hany]
  · intro h hall
    have hany : tableResults.any (fun result => result.status == TableResultStatus.failed)
        = false := by
      simp only [List.any_eq_false]
      intro r hr
      simpa using hall r hr
    simp [computeRunStatus, h, hany]
  · rw [summarizeRun, summarize_foldl]; simp [defaultRunSummary]
  · rw [summarizeRun, summarize_foldl]; simp [defaultRunSummary]
  · rw [summarizeRun, summarize_foldl]; simp [defaultRunSummary]

theorem computeRunStatus_summarizeRun_spec_witness :
    computeRunStatus none
        [⟨"public", "users", .full, .reindexed, 5, none⟩,
         ⟨"public", "orders", .full, .failed, 0, some "table failed"⟩]
      = RunStatus.partialSuccess :=
  (computeRunStatus_summarizeRun_spec none []
      [⟨"public", "users", .full, .reindexed, 5, none⟩,
       ⟨"public", "orders", .full, .failed, 0, some "table failed"⟩]).2.1
    (by decide)
    ⟨⟨"public", "orders", .full, .failed, 0, some "table failed"⟩, by decide, rfl⟩

/-- C2 counterexample: the claim says `last_mode` is carried forward from
the existing catalog record unless this run succeeded for the table, but
`buildCatalogRecord` sets `last_mode` to the result's mode whenever a
result is present — even a failed one. Here the run failed for the table,
the existing record has `last_mode = skip`, yet the persisted record gets
`last_mode = full`. -/
theorem buildCatalogRecord_last_mode_counterexample :
    (buildCatalogRecord ⟨"public", "users", 10, none, none, "s2", "t2"⟩
        (some ⟨"public", "users", .full, .failed, 0, some "boom"⟩)
        (some ⟨"public", "users", "s1", "t1", 9, none, some "run_0",
               some "2026-01-01T00:00:00.000Z", some .skip, none⟩)
        "run_1" "2026-02-02T00:00:00.000Z" none).last_mode
      = some TableMode.full ∧
    some TableMode.full ≠ some TableMode.skip := by
  exact ⟨by decide, by decide⟩

/-- C2 (amended): in `buildCatalogRecord`, the run succeeded for a table
exactly when a result is present, the result is not failed, and the fatal
error is not truthy; then `last_success_run_id`/`last_success_at` are set
to the current run id and finish timestamp and `last_mode` to the result's
mode. Otherwise `last_success_run_id` and `last_success_at` are carried
forward from the existing record (unchanged whenever the prior values are
not the falsy empty string, which `|| null` normalizes to null) — so these
two fields never regress on failure — while `last_mode` is NOT carried
forward whenever a result is present: it is set to the result's mode even
for a failed result, and falls back to the existing record's `last_mode`
only when the table produced no result. -/
theorem buildCatalogRecord_spec (snapshot : TableSnapshot)
    (result : Option TableRunResult) (existing : Option ControlCatalogRecord)
    (runId finishedAt : String) (fatalError : Option String) :
    (∀ r, result = some r → r.status ≠ .failed → jsStrTruthy fatalError = false →
      (buildCatalogRecord snapshot result existing runId finishedAt fatalError).last_success_run_id
        = some runId ∧
      (buildCatalogRecord snapshot result existing runId finishedAt fatalError).last_success_at
        = some finishedAt ∧
      (buildCatalogRecord snapshot result existing runId finishedAt fatalError).last_mode
        = some r.mode) ∧
    ((result = none ∨ (∃ r, result = some r ∧ r.status = .failed) ∨
        jsStrTruthy fatalError = true) →
      (buildCatalogRecord snapshot result existing runId finishedAt fatalError).last_success_run_id
        = jsOrNull (existing.bind (fun e => e.last_success_run_id)) ∧
      (buildCatalogRecord snapshot result existing runId finishedAt fatalError).last_success_at
        = jsOrNull (existing.bind (fun e => e.last_success_at))) ∧
    (∀ e, existing = some e →
      (result = none ∨ (∃ r, result = some r ∧ r.status = .failed) ∨
        jsStrTruthy fatalError = true) →
      e.last_success_run_id ≠ some "" → e.last_success_at ≠ some "" →
      (buildCatalogRecord snapshot result existing runId finishedAt fatalError).last_success_run_id
        = e.last_success_run_id ∧
      (buildCatalogRecord snapshot result existing runId finishedAt fatalError).last_success_at
        = e.last_success_at) ∧
    (∀ r, result = some r →
      (buildCatalogRecord snapshot result existing runId finishedAt fatalError).last_mode
        = some r.mode) ∧
    (result = none →
      (buildCatalogRecord snapshot result existing runId finishedAt fatalError).last_mode
        = existing.bind (fun e => e.last_mode)) := by
  refine ⟨?_, ?_, ?_, ?_, ?_⟩
  · intro r hr hstatus hfatal
    subst hr
    have hfailed : (r.status == TableResultStatus.failed) = false := by
      simpa using hstatus
    simp [buildCatalogRecord, hfailed, hfatal]
  · intro hcase
    rcases hcase with hnone | ⟨r, hr, hstatus⟩ | hfatal
    · subst hnone; simp [buildCatalogRecord]
    · subst hr; simp [buildCatalogRecord, hstatus]
    · cases result with
      | none => simp [buildCatalogRecord, hfatal]
      | some r => simp [buildCatalogRecord, hfatal]
  · intro e he hcase hrun hat
    subst he
    rcases hcase with hnone | ⟨r, hr, hstatus⟩ | hfatal
    · subst hnone
      simp [buildCatalogRecord, jsOrNull_of_ne_empty _ hrun, jsOrNull_of_ne_empty _ hat]
    · subst hr
      simp [buildCatalogRecord, hstatus, jsOrNull_of_ne_empty _ hrun,
        jsOrNull_of_ne_empty _ hat]
    · cases result with
      | none =>
        simp [buildCatalogRecord, hfatal, jsOrNull_of_ne_empty _ hrun,
          jsOrNull_of_ne_empty _ hat]
      | some r =>
        simp [buildCatalogRecord, hfatal, jsOrNull_of_ne_empty _ hrun,
          jsOrNull_of_ne_empty _ hat]
  · intro r hr
    subst hr
    simp [buildCatalogRecord]
  · intro hnone
    subst hnone
    simp [buildCatalogRecord]

theorem buildCatalogRecord_spec_witness :
    (buildCatalogRecord ⟨"public", "users", 10, none, none, "s2", "t2"⟩
        (some ⟨"public", "users", .full, .failed, 0, some "boom"⟩)
        (some ⟨"public", "users", "s1", "t1", 9, none, some "run_0",
               some "2026-01-01T00:00:00.000Z", some .skip, none⟩)
        "run_1" "2026-02-02T00:00:00.000Z" none).last_success_run_id
      = some "run_0" :=
  ((buildCatalogRecord_spec ⟨"public", "users", 10, none, none, "s2", "t2"⟩
      (some ⟨"public", "users", .full, .failed, 0, some "boom"⟩)
      (some ⟨"public", "users", "s1", "t1", 9, none, some "run_0",
             some "2026-01-01T00:00:00.000Z", some .skip, none⟩)
      "run_1" "2026-02-02T00:00:00.000Z" none).2.2.1
    ⟨"public", "users", "s1", "t1", 9, none, some "run_0",
     some "2026-01-01T00:00:00.000Z", some .skip, none⟩ rfl
    (Or.inr (Or.inl ⟨⟨"public", "users", .full, .failed, 0, some "boom"⟩, rfl, rfl⟩))
    (by decide) (by decide)).1

/-- C10 counterexample: the claim says a table whose row count is absent
from the map is treated as row count 0 and enqueued as one whole-table
item, but when the large-table threshold is non-positive and the chunk
size is positive, the chunking branch is taken with
`Math.ceil(0 / chunkSize) = 0` chunks, so no work item is enqueued at
all. -/
theorem buildQueue_zero_threshold_counterexample :
    (buildQueue [⟨"public", "users", [], [], none⟩] [] 0 10).1 = [] ∧
    (buildQueue [⟨"public", "users", [], [], none⟩] [] 0 10).2 = [("public.users", 0)] := by
  exact ⟨by decide, by decide⟩

/-- C10 (amended): in `buildQueue`, the chunk-splitting rule is applied
only when the table's known row count reaches the large-table threshold
AND `chunkSize > 0`; in particular a table with `chunkSize <= 0` is
enqueued as a single whole-table item regardless of its row count (no
division by zero can occur), and a table whose row count is absent from
the map is treated as row count 0 and enqueued as one whole-table item
provided the threshold is positive (with a non-positive threshold and
positive chunk size, such a table yields `ceil(0/chunkSize) = 0` chunk
items, i.e. no work item). When the chunking branch is taken, the table
contributes exactly `ceil(rowCount/chunkSize)` chunk items and its
expected chunk count is recorded. -/
theorem buildQueue_spec (tableInfo : TableInfo) (rest : List TableInfo)
    (rowCounts : List (String × Int)) (largeTableThreshold chunkSize : Int) :
    (((jsMapGet rowCounts (tableInfo.schema ++ "." ++ tableInfo.table)).getD 0
        ≥ largeTableThreshold → chunkSize ≤ 0 →
      buildQueue (tableInfo :: rest) rowCounts largeTableThreshold chunkSize
        = (QueueItem.table tableInfo
            :: (buildQueue rest rowCounts largeTableThreshold chunkSize).1,
           (buildQueue rest rowCounts largeTableThreshold chunkSize).2))) ∧
    ((jsMapGet rowCounts (tableInfo.schema ++ "." ++ tableInfo.table) = none →
      0 < largeTableThreshold →
      buildQueue (tableInfo :: rest) rowCounts largeTableThreshold chunkSize
        = (QueueItem.table tableInfo
            :: (buildQueue rest rowCounts largeTableThreshold chunkSize).1,
           (buildQueue rest rowCounts largeTableThreshold chunkSize).2))) ∧
    (((jsMapGet rowCounts (tableInfo.schema ++ "." ++ tableInfo.table)).getD 0
        ≥ largeTableThreshold → 0 < chunkSize →
      buildQueue (tableInfo :: rest) rowCounts largeTableThreshold chunkSize
        = (chunkItemsFor tableInfo (tableInfo.schema ++ "." ++ tableInfo.table) chunkSize
             (numChunksFor
               ((jsMapGet rowCounts (tableInfo.schema ++ "." ++ tableInfo.table)).getD 0)
               chunkSize)
             ++ (buildQueue rest rowCounts largeTableThreshold chunkSize).1,
           (tableInfo.schema ++ "." ++ tableInfo.table,
            numChunksFor
              ((jsMapGet rowCounts (tableInfo.schema ++ "." ++ tableInfo.table)).getD 0)
              chunkSize)
             :: (buildQueue rest rowCounts largeTableThreshold chunkSize).2) ∧
      (chunkItemsFor tableInfo (tableInfo.schema ++ "." ++ tableInfo.table) chunkSize
          (numChunksFor
            ((jsMapGet rowCounts (tableInfo.schema ++ "." ++ tableInfo.table)).getD 0)
            chunkSize)).length
        = (numChunksFor
            ((jsMapGet rowCounts (tableInfo.schema ++ "." ++ tableInfo.table)).getD 0)
            chunkSize).toNat)) := by
  have hlen : ∀ (ti : TableInfo) (key : String) (cs n : Int),
      (chunkItemsFor ti key cs n).length = n.toNat := by
    intro ti key cs n
    rw [chunkItemsFor, List.length_map, List.length_range]
  refine ⟨?_, ?_, ?_⟩
  · intro hrc hcs
    have hnot : ¬(((jsMapGet rowCounts (tableInfo.schema ++ "." ++ tableInfo.table)).getD 0
        ≥ largeTableThreshold) ∧ chunkSize > 0) := by
      intro ⟨_, hpos⟩; omega
    simp only [buildQueue]
    rw [if_neg hnot]
  · intro hmiss hthr
    have hnot : ¬(((jsMapGet rowCounts (tableInfo.schema ++ "." ++ tableInfo.table)).getD 0
        ≥ largeTableThreshold) ∧ chunkSize > 0) := by
      intro ⟨hge, _⟩
      rw [hmiss] at hge
      simp only [Option.getD_none] at hge
      omega
    simp only [buildQueue]
    rw [if_neg hnot]
  · intro hrc hcs
    constructor
    · simp only [buildQueue]
      rw [if_pos ⟨hrc, hcs⟩]
    · exact hlen _ _ _ _

theorem buildQueue_spec_witness :
    buildQueue [⟨"public", "users", [], [], none⟩] [("public.users", 100)] 50 0
      = ([QueueItem.table ⟨"public", "users", [], [], none⟩], []) :=
  (buildQueue_spec ⟨"public", "users", [], [], none⟩ [] [("public.users", 100)] 50 0).1
    (by decide) (by decide)

/-- C4 counterexample: the claim says a column listed in `excludedColumns`
never appears in the page content, but when no per-column line is produced
(here: the only textual column is excluded and the mode is `auto`), the
fallback embeds the entire canonicalized row — including the excluded
column's name and value — in the page content. -/
theorem transform_excluded_column_leak_counterexample :
    (transformRowToDocument [("id", .vNum 1), ("secret", .vStr "token")]
        ⟨"public", "users",
         [⟨"id", "integer", false, none, 1, some 1⟩,
          ⟨"secret", "text", true, none, 2, none⟩],
         ["id"], none⟩
        "run_1" .auto ["secret"]).toOption.map (fun d => d.document.pageContent)
      = some ("[public.users] \x7b\"id\":1,\"secret\":\"token\"\x7d") ∧
    containsSub "token".data
      ((((transformRowToDocument [("id", .vNum 1), ("secret", .vStr "token")]
          ⟨"public", "users",
           [⟨"id", "integer", false, none, 1, some 1⟩,
            ⟨"secret", "text", true, none, 2, none⟩],
           ["id"], none⟩
          "run_1" .auto ["secret"]).toOption.map (fun d => d.document.pageContent)).getD "").data)
      = true := by
  exact ⟨by decide, by decide⟩

/-- C4 (amended): an excluded column (compared case-insensitively) never
contributes a per-column line to the page content: every line produced by
the transformer's line builder comes from a non-excluded column of the
table, and when at least one line is produced the page content is exactly
the newline-join of those lines. Only the whole-row fallback — taken when
no line was produced — embeds the entire canonicalized row, including
excluded columns. -/
theorem pageContent_excluded_columns_spec (row : List (String × JsVal))
    (tableInfo : TableInfo) (runId : String) (textColumnsMode : TextColumnsMode)
    (excludedColumns : List String) :
    (∀ line ∈ pageContentLines row tableInfo textColumnsMode
        (excludedColumns.map jsToLower),
      ∃ c, c ∈ tableInfo.columns ∧
        (excludedColumns.map jsToLower).contains (jsToLower c.columnName) = false ∧
        line = c.columnName ++ ": "
          ++ normalizeValue ((rowGet row c.columnName).getD .vNull)) ∧
    (pageContentLines row tableInfo textColumnsMode (excludedColumns.map jsToLower) ≠ [] →
      createPageContent row tableInfo textColumnsMode (excludedColumns.map jsToLower)
        = String.intercalate "\n"
            (pageContentLines row tableInfo textColumnsMode
              (excludedColumns.map jsToLower))) ∧
    (∀ d, transformRowToDocument row tableInfo runId textColumnsMode excludedColumns = .ok d →
      d.document.pageContent
        = createPageContent row tableInfo textColumnsMode
            (excludedColumns.map jsToLower)) := by
  refine ⟨?_, ?_, ?_⟩
  · intro line hline
    rw [pageContentLines, List.mem_filter] at hline
    obtain ⟨hmem, hlen⟩ := hline
    rw [List.mem_map] at hmem
    obtain ⟨name, hname, hbuild⟩ := hmem
    rw [selectPageContentColumns, List.mem_map] at hname
    obtain ⟨c, hc, hcname⟩ := hname
    rw [List.mem_filter] at hc
    obtain ⟨hc1, _⟩ := hc
    rw [List.mem_filter] at hc1
    obtain ⟨hcmem, hcexcl⟩ := hc1
    refine ⟨c, hcmem, by simpa using hcexcl, ?_⟩
    subst hcname
    by_cases hnorm :
        (normalizeValue ((rowGet row c.columnName).getD .vNull)).length > 0
    · rw [← hbuild]
      simp [hnorm]
    · rw [← hbuild] at hlen
      simp [hnorm] at hlen
  · intro hne
    rw [createPageContent]
    have : (pageContentLines row tableInfo textColumnsMode
        (excludedColumns.map jsToLower)).length > 0 := by
      cases h : pageContentLines row tableInfo textColumnsMode
          (excludedColumns.map jsToLower) with
      | nil => exact absurd h hne
      | cons a t => simp [h]
    simp only [this, if_pos]
  · intro d hd
    cases hpk : extractPrimaryKey row tableInfo with
    | error e =>
      rw [transformRowToDocument] at hd
      rw [hpk] at hd
      exact absurd hd (by simp)
    | ok pk =>
      rw [transformRowToDocument] at hd
      rw [hpk] at hd
      simp only [Except.ok.injEq] at hd
      rw [← hd]

theorem pageContent_excluded_columns_spec_witness :
    createPageContent
        [("id", .vNum 1), ("name", .vStr "Alice"), ("secret", .vStr "token")]
        ⟨"public", "users",
         [⟨"id", "integer", false, none, 1, some 1⟩,
          ⟨"name", "character varying", false, none, 2, none⟩,
          ⟨"secret", "text", true, none, 3, none⟩],
         ["id"], none⟩
        .auto (["secret"].map jsToLower)
      = String.intercalate "\n"
          (pageContentLines
            [("id", .vNum 1), ("name", .vStr "Alice"), ("secret", .vStr "token")]
            ⟨"public", "users",
             [⟨"id", "integer", false, none, 1, some 1⟩,
              ⟨"name", "character varying", false, none, 2, none⟩,
              ⟨"secret", "text", true, none, 3, none⟩],
             ["id"], none⟩
            .auto (["secret"].map jsToLower)) :=
  (pageContent_excluded_columns_spec
    [("id", .vNum 1), ("name", .vStr "Alice"), ("secret", .vStr "token")]
    ⟨"public", "users",
     [⟨"id", "integer", false, none, 1, some 1⟩,
      ⟨"name", "character varying", false, none, 2, none⟩,
      ⟨"secret", "text", true, none, 3, none⟩],
     ["id"], none⟩
    "run_1" .auto ["secret"]).2.1 (by decide)

theorem sortJsonFields_eq_map (l : List (String × JsVal)) :
    sortJsonFields l = l.map (fun p => (p.1, sortJsonValue p.2)) := by
  induction l with
  | nil => rfl
  | cons p t ih => cases p; simp [sortJsonFields, ih]

theorem sortJsonList_eq_map (l : List JsVal) :
    sortJsonList l = l.map sortJsonValue := by
  induction l with
  | nil => rfl
  | cons v t ih => simp [sortJsonList, ih]

theorem string_data_inj {s t : String} (h : s.data = t.data) : s = t := by
  cases s; cases t; exact congrArg String.mk h

theorem sorted_fieldKeyLT {s : List (String × JsVal)} (hs : s.Sorted fieldLE)
    (hnd : (s.map Prod.fst).Nodup) : s.Sorted fieldKeyLT := by
  have hne : s.Pairwise (fun p q : String × JsVal => p.1 ≠ q.1) :=
    List.pairwise_map.mp hnd
  exact (hs.and hne).imp (fun h =>
    lt_of_le_of_ne h.1 (fun hdata => h.2 (string_data_inj hdata)))

theorem eq_of_perm_sorted_fields {s₁ s₂ : List (String × JsVal)} (hp : s₁.Perm s₂)
    (h₁ : s₁.Sorted fieldKeyLT) (h₂ : s₂.Sorted fieldKeyLT) : s₁ = s₂ := by
  haveI : IsAntisymm (String × JsVal) fieldKeyLT :=
    ⟨fun a b hab hba => absurd hba (lt_asymm hab)⟩
  exact List.eq_of_perm_of_sorted hp h₁ h₂

theorem sortFieldsByKey_perm {l₁ l₂ : List (String × JsVal)} (hp : l₁.Perm l₂)
    (hnd : (l₁.map Prod.fst).Nodup) : sortFieldsByKey l₁ = sortFieldsByKey l₂ := by
  have hperm : sortFieldsByKey l₁ |>.Perm (sortFieldsByKey l₂) :=
    (List.perm_insertionSort fieldLE l₁).trans
      (hp.trans (List.perm_insertionSort fieldLE l₂).symm)
  have hnd₁ : ((sortFieldsByKey l₁).map Prod.fst).Nodup :=
    (((List.perm_insertionSort fieldLE l₁).map Prod.fst).nodup_iff).mpr hnd
  have hnd₂ : ((sortFieldsByKey l₂).map Prod.fst).Nodup :=
    (((List.perm_insertionSort fieldLE l₂).map Prod.fst).nodup_iff).mpr
      ((hp.map Prod.fst).nodup_iff.mp hnd)
  exact eq_of_perm_sorted_fields hperm
    (sorted_fieldKeyLT (List.sorted_insertionSort fieldLE l₁) hnd₁)
    (sorted_fieldKeyLT (List.sorted_insertionSort fieldLE l₂) hnd₂)

theorem keyEquiv_sortJsonValue {v₁ v₂ : JsVal} (h : KeyEquiv v₁ v₂) :
    sortJsonValue v₁ = sortJsonValue v₂ := by
  refine @KeyEquiv.rec (fun a b _ => sortJsonValue a = sortJsonValue b)
    (fun a b _ => sortJsonList a = sortJsonList b)
    (fun a b _ => sortJsonFields a = sortJsonFields b)
    rfl (fun _ => rfl) (fun _ => rfl) (fun _ => rfl) (fun _ => rfl) (fun _ => rfl)
    ?_ ?_ rfl ?_ rfl ?_ v₁ v₂ h
  · intro l₁ l₂ _ ih
    simp only [sortJsonValue, ih]
  · intro l₁ l₂ l₃ _ hperm hnd ih
    simp only [sortJsonValue, JsVal.vObj.injEq]
    have hperm2 : (sortJsonFields l₂).Perm (sortJsonFields l₃) := by
      rw [sortJsonFields_eq_map, sortJsonFields_eq_map]
      exact hperm.map _
    have hnd₁ : ((sortJsonFields l₁).map Prod.fst).Nodup := by
      rw [sortJsonFields_eq_map]
      simpa [List.map_map, Function.comp] using hnd
    calc sortFieldsByKey (sortJsonFields l₁)
        = sortFieldsByKey (sortJsonFields l₂) := by rw [ih]
      _ = sortFieldsByKey (sortJsonFields l₃) :=
        sortFieldsByKey_perm hperm2 (by rwa [← ih])
  · intro v w l₁ l₂ _ _ ih₁ ih₂
    simp only [sortJsonList, ih₁, ih₂]
  · intro k v w l₁ l₂ _ _ ih₁ ih₂
    simp only [sortJsonFields, ih₁, ih₂]

/-- C7: values that are equal up to the insertion order of object keys at
every nesting level canonicalize to the same string, and hence to the same
fingerprint; the fingerprint is stable across repeated calls with equal
input; array element order remains significant — permuting the elements of
an array changes the output. -/
theorem stableStringify_key_order_spec :
    (∀ v₁ v₂ : JsVal, KeyEquiv v₁ v₂ →
      stableStringify v₁ = stableStringify v₂ ∧
      sha256Hex (stableStringify v₁) = sha256Hex (stableStringify v₂)) ∧
    stableStringify (.vArr [.vNum 1, .vNum 2])
      ≠ stableStringify (.vArr [.vNum 2, .vNum 1]) := by
  constructor
  · intro v₁ v₂ h
    have heq := keyEquiv_sortJsonValue h
    rw [stableStringify, stableStringify, heq]
    exact ⟨rfl, rfl⟩
  · decide

theorem stableStringify_key_order_spec_witness :
    stableStringify (.vObj [("b", .vNum 1), ("a", .vNum 2)])
      = stableStringify (.vObj [("a", .vNum 2), ("b", .vNum 1)]) :=
  (stableStringify_key_order_spec.1 _ _
    (KeyEquiv.vobj
      (KeyEquivFields.cons (KeyEquiv.vnum 1)
        (KeyEquivFields.cons (KeyEquiv.vnum 2) KeyEquivFields.nil))
      (List.Perm.swap (("a", JsVal.vNum 2) : String × JsVal) ("b", JsVal.vNum 1) [])
      (by decide))).1

theorem orderedInsert_map {α β : Type} (r : β → β → Prop) [DecidableRel r] (f : α → β)
    (a : α) (l : List α) :
    List.orderedInsert r (f a) (l.map f) = (List.orderedInsert (pullbackRel r f) a l).map f := by
  induction l with
  | nil => rfl
  | cons b t ih =>
    simp only [List.map_cons, List.orderedInsert]
    by_cases h : r (f a) (f b)
    · rw [if_pos h, if_pos (show pullbackRel r f a b from h)]
      simp
    · rw [if_neg h, if_neg (show ¬pullbackRel r f a b from h)]
      simp [ih]

theorem insertionSort_map {α β : Type} (r : β → β → Prop) [DecidableRel r] (f : α → β)
    (l : List α) :
    (l.map f).insertionSort r = (l.insertionSort (pullbackRel r f)).map f := by
  induction l with
  | nil => rfl
  | cons a t ih =>
    simp only [List.map_cons, List.insertionSort, ih]
    exact orderedInsert_map r f a _

theorem orderedInsert_congr {α : Type} (r₁ r₂ : α → α → Prop)
    [DecidableRel r₁] [DecidableRel r₂] (a : α) (l : List α)
    (h : ∀ b ∈ l, (r₁ a b ↔ r₂ a b)) :
    List.orderedInsert r₁ a l = List.orderedInsert r₂ a l := by
  induction l with
  | nil => rfl
  | cons b t ih =>
    simp only [List.orderedInsert]
    by_cases h₁ : r₁ a b
    · rw [if_pos h₁, if_pos ((h b (by simp)).mp h₁)]
    · rw [if_neg h₁, if_neg (fun h₂ => h₁ ((h b (by simp)).mpr h₂)),
        ih (fun c hc => h c (by simp [hc]))]

theorem insertionSort_congr {α : Type} (r₁ r₂ : α → α → Prop)
    [DecidableRel r₁] [DecidableRel r₂] (l : List α)
    (h : ∀ a ∈ l, ∀ b ∈ l, (r₁ a b ↔ r₂ a b)) :
    l.insertionSort r₁ = l.insertionSort r₂ := by
  induction l with
  | nil => rfl
  | cons a t ih =>
    simp only [List.insertionSort]
    rw [ih (fun x hx y hy => h x (by simp [hx]) y (by simp [hy]))]
    exact orderedInsert_congr r₁ r₂ a _ (fun b hb =>
      h a (by simp) b (by simp [(List.mem_insertionSort r₂).mp hb]))

theorem projectColumn_fields_eq {a b : ColumnInfo} (h : projectColumn a = projectColumn b) :
    a.columnName = b.columnName ∧ a.dataType = b.dataType ∧ a.isNullable = b.isNullable ∧
    a.columnDefault = b.columnDefault ∧ a.pkPosition = b.pkPosition := by
  cases hca : a.columnDefault <;> cases hcb : b.columnDefault <;>
    cases hpa : a.pkPosition <;> cases hpb : b.pkPosition <;>
    simp only [projectColumn, hca, hcb, hpa, hpb, List.cons.injEq, Prod.mk.injEq,
      JsVal.vStr.injEq, JsVal.vBool.injEq, JsVal.vNum.injEq, and_true, true_and] at h <;>
    simp_all

/-- The canonical schema rewritten through the zipped pair list: used to
compare `computeSchemaHash` runs on two pointwise-related column lists. -/
theorem canonicalSchema_zip (cs cs' : List ColumnInfo) (hlen : cs.length = cs'.length) :
    canonicalSchema cs
      = ((cs.zip cs').insertionSort (pullbackRel ordinalLE Prod.fst)).map
          (fun p => JsVal.vObj (projectColumn p.1)) ∧
    canonicalSchema cs'
      = ((cs.zip cs').insertionSort (pullbackRel ordinalLE Prod.snd)).map
          (fun p => JsVal.vObj (projectColumn p.2)) := by
  constructor
  · have h1 : cs = (cs.zip cs').map Prod.fst :=
      (List.map_fst_zip cs cs' (le_of_eq hlen)).symm
    rw [canonicalSchema, sortColumnsByOrdinal]
    conv_lhs => rw [h1]
    rw [insertionSort_map ordinalLE Prod.fst, List.map_map]
    rfl
  · have h2 : cs' = (cs.zip cs').map Prod.snd :=
      (List.map_snd_zip cs cs' (ge_of_eq hlen)).symm
    rw [canonicalSchema, sortColumnsByOrdinal]
    conv_lhs => rw [h2]
    rw [insertionSort_map ordinalLE Prod.snd, List.map_map]
    rfl

/-- C8: `computeSchemaHash` is unchanged by renumbering ordinal positions
that preserves the columns' relative sort order (the ordinal is used only
as the sort key and is not part of the projected fields); and changing any
single column's data type, nullability, default or pk-position (keeping its
name and ordinal) changes the canonical projected array that is
fingerprinted. -/
theorem computeSchemaHash_sensitivity :
    (∀ cs cs' : List ColumnInfo,
      List.Forall₂ (fun a b => projectColumn a = projectColumn b) cs cs' →
      (∀ p ∈ cs.zip cs', ∀ q ∈ cs.zip cs',
        (p.1.ordinalPosition ≤ q.1.ordinalPosition
          ↔ p.2.ordinalPosition ≤ q.2.ordinalPosition)) →
      computeSchemaHash cs = computeSchemaHash cs') ∧
    (∀ (cs : List ColumnInfo) (i : Nat) (hi : i < cs.length) (c' : ColumnInfo),
      c'.ordinalPosition = cs[i].ordinalPosition →
      (c'.dataType ≠ cs[i].dataType ∨ c'.isNullable ≠ cs[i].isNullable ∨
       c'.columnDefault ≠ cs[i].columnDefault ∨ c'.pkPosition ≠ cs[i].pkPosition) →
      canonicalSchema (cs.set i c') ≠ canonicalSchema cs) := by
  constructor
  · intro cs cs' hproj horder
    have hlen : cs.length = cs'.length := hproj.length_eq
    obtain ⟨hzip1, hzip2⟩ := canonicalSchema_zip cs cs' hlen
    have hsorteq :
        (cs.zip cs').insertionSort (pullbackRel ordinalLE Prod.fst)
          = (cs.zip cs').insertionSort (pullbackRel ordinalLE Prod.snd) :=
      insertionSort_congr _ _ _ (fun p hp q hq => horder p hp q hq)
    have hmem : ∀ p ∈ (cs.zip cs').insertionSort (pullbackRel ordinalLE Prod.snd),
        projectColumn p.1 = projectColumn p.2 := by
      intro p hp
      have hpz : p ∈ cs.zip cs' := (List.mem_insertionSort _).mp hp
      exact (List.forall₂_iff_zip.mp hproj).2 hpz
    have : canonicalSchema cs = canonicalSchema cs' := by
      rw [hzip1, hzip2, hsorteq]
      exact List.map_inj_left.mpr (fun p hp => by rw [hmem p hp])
    rw [computeSchemaHash, computeSchemaHash, this]
  · intro cs i hi c' hord hdiff heq
    set cs'' := cs.set i c' with hcs''
    have hlen : cs''.length = cs.length := by simp [hcs'']
    have hordpt : ∀ p ∈ cs''.zip cs, p.1.ordinalPosition = p.2.ordinalPosition := by
      intro p hp
      obtain ⟨j, hj, hpe⟩ := List.mem_iff_getElem.mp hp
      rw [List.getElem_zip] at hpe
      rw [← hpe]
      have hjlen : j < cs.length := by
        have := hj; simp [hcs''] at this; omega
      simp only [hcs'', List.getElem_set]
      by_cases hji : i = j
      · subst hji; simpa using hord
      · simp [hji]
    obtain ⟨hzip1, hzip2⟩ := canonicalSchema_zip cs'' cs hlen
    have hsorteq :
        (cs''.zip cs).insertionSort (pullbackRel ordinalLE Prod.fst)
          = (cs''.zip cs).insertionSort (pullbackRel ordinalLE Prod.snd) :=
      insertionSort_congr _ _ _ (fun p hp q hq => by
        rw [pullbackRel, pullbackRel, ordinalLE, ordinalLE, hordpt p hp, hordpt q hq])
    have hmem : ∀ p ∈ (cs''.zip cs).insertionSort (pullbackRel ordinalLE Prod.snd),
        JsVal.vObj (projectColumn p.1) = JsVal.vObj (projectColumn p.2) := by
      rw [hzip1, hsorteq] at heq
      rw [hzip2] at heq
      exact List.map_inj_left.mp heq
    have hpair : ((c', cs[i]) : ColumnInfo × ColumnInfo) ∈ cs''.zip cs := by
      rw [List.mem_iff_getElem]
      refine ⟨i, ?_, ?_⟩
      · simp [hcs'']
        omega
      · rw [List.getElem_zip]
        simp [hcs'', List.getElem_set_self]
    have hobj := hmem (c', cs[i]) ((List.mem_insertionSort _).mpr hpair)
    have hfields := projectColumn_fields_eq (JsVal.vObj.inj hobj)
    rcases hdiff with hd | hd | hd | hd
    · exact hd hfields.2.1
    · exact hd hfields.2.2.1
    · exact hd hfields.2.2.2.1
    · exact hd hfields.2.2.2.2

theorem computeSchemaHash_sensitivity_witness :
    computeSchemaHash
        [⟨"id", "integer", false, none, 10, some 1⟩,
         ⟨"name", "character varying", false, none, 20, none⟩]
      = computeSchemaHash
        [⟨"id", "integer", false, none, 1, some 1⟩,
         ⟨"name", "character varying", false, none, 2, none⟩] :=
  (computeSchemaHash_sensitivity.1
    [⟨"id", "integer", false, none, 10, some 1⟩,
     ⟨"name", "character varying", false, none, 20, none⟩]
    [⟨"id", "integer", false, none, 1, some 1⟩,
     ⟨"name", "character varying", false, none, 2, none⟩]
    (List.Forall₂.cons rfl (List.Forall₂.cons rfl List.Forall₂.nil))
    (by decide))

theorem str_append_left_cancel {a b c : String} (h : a ++ b = a ++ c) : b = c := by
  have hd := congrArg String.data h
  simp only [String.data_append] at hd
  exact string_data_inj (List.append_cancel_left hd)

theorem str_append_right_cancel {a b c : String} (h : a ++ c = b ++ c) : a = b := by
  have hd := congrArg String.data h
  simp only [String.data_append] at hd
  exact string_data_inj (List.append_cancel_right hd)

/-- C9 counterexample: the claim says varying any of the three `buildDocId`
inputs changes the id, but two different primary keys whose canonical
serializations coincide produce the same id: a `BigInt` primary-key value
and its decimal-string form canonicalize to the same string (`sortJsonValue`
maps a BigInt to its decimal string), so the ids collide. -/
theorem buildDocId_canonical_collision_counterexample :
    buildDocId "public" "users" [("id", .vBigInt 7)]
      = buildDocId "public" "users" [("id", .vStr "7")] ∧
    ¬ ([(("id" : String), JsVal.vBigInt 7)] = [("id", JsVal.vStr "7")]) := by
  constructor
  · rfl
  · intro h
    simp at h

/-- C9 (amended): `buildDocId` is deterministic — identical inputs (primary
keys equal up to object key order at every nesting level) give identical
ids; varying the schema alone, or the table alone, changes the hashed
canonical string and hence (for the collision-free digest model) the id;
varying the primary key changes the id exactly when the primary keys'
canonical serializations differ — values that canonicalize identically
(e.g. a BigInt and its decimal string) give the same id. -/
theorem buildDocId_spec (schema table schema' table' : String)
    (pk₁ pk₂ : List (String × JsVal)) :
    (KeyEquiv (.vObj pk₁) (.vObj pk₂) →
      buildDocId schema table pk₁ = buildDocId schema table pk₂) ∧
    (schema ≠ schema' → buildDocId schema table pk₁ ≠ buildDocId schema' table pk₁) ∧
    (table ≠ table' → buildDocId schema table pk₁ ≠ buildDocId schema table' pk₁) ∧
    (stableStringify (.vObj pk₁) ≠ stableStringify (.vObj pk₂) →
      buildDocId schema table pk₁ ≠ buildDocId schema table pk₂) := by
  refine ⟨?_, ?_, ?_, ?_⟩
  · intro h
    have heq : stableStringify (.vObj pk₁) = stableStringify (.vObj pk₂) := by
      rw [stableStringify, stableStringify, keyEquiv_sortJsonValue h]
    rw [buildDocId, buildDocId, heq]
  · intro hne h
    simp only [buildDocId, sha256Hex] at h
    exact hne (str_append_right_cancel (str_append_right_cancel
      (str_append_right_cancel (str_append_right_cancel (str_append_left_cancel h)))))
  · intro hne h
    simp only [buildDocId, sha256Hex] at h
    exact hne (str_append_left_cancel (str_append_right_cancel
      (str_append_right_cancel (str_append_left_cancel h))))
  · intro hstr h
    simp only [buildDocId, sha256Hex] at h
    exact hstr (str_append_left_cancel (str_append_left_cancel h))

theorem buildDocId_spec_witness :
    buildDocId "public" "users" [("id", .vNum 1)]
      ≠ buildDocId "public" "users" [("id", .vNum 2)] :=
  (buildDocId_spec "public" "users" "public" "users"
    [("id", .vNum 1)] [("id", .vNum 2)]).2.2.2 (by decide)

theorem jsMapSet_append {α : Type} (m : List (String × α)) (k : String) (v : α)
    (hany : (m.any (fun p => p.1 == k)) = false) : jsMapSet m k v = m ++ [(k, v)] := by
  rw [jsMapSet, if_neg]
  simp [hany]

theorem handleChunkResult_cont (cc : List (String × Int)) (schema table : String)
    (NInt : Int) (acc : List (String × (Int × Int))) (m : ChunkResultMsg)
    (hms : m.schema = schema) (hmt : m.table = table)
    (hany : (acc.any (fun p => p.1 == m.chunkId)) = false)
    (hne : (acc.length : Int) + 1 ≠ NInt) :
    handleChunkResult cc [(schema ++ "." ++ table, ⟨schema, table, NInt, acc⟩)] m
      = ([(schema ++ "." ++ table, ⟨schema, table, NInt, acc ++ [chunkEntry m]⟩)], none) := by
  simp [handleChunkResult, jsMapGet, jsMapSet, jsMapDelete, hms, hmt, hany, hne, chunkEntry]

theorem handleChunkResult_emit (cc : List (String × Int)) (schema table : String)
    (NInt : Int) (acc : List (String × (Int × Int))) (m : ChunkResultMsg)
    (hms : m.schema = schema) (hmt : m.table = table)
    (hany : (acc.any (fun p => p.1 == m.chunkId)) = false)
    (hpos : (acc.length : Int) + 1 = NInt) :
    handleChunkResult cc [(schema ++ "." ++ table, ⟨schema, table, NInt, acc⟩)] m
      = ([], some ⟨schema, table,
          (acc.map (fun p => p.2.1)).sum + m.rowCount,
          (acc.map (fun p => p.2.2)).sum + m.tokenCount⟩) := by
  simp [handleChunkResult, jsMapGet, jsMapSet, jsMapDelete, hms, hmt, hany, hpos.symm,
    chunkEntry]

theorem processChunks_complete (chunkCounts : List (String × Int)) (schema table : String)
    (N : Nat) :
    ∀ (msgs : List ChunkResultMsg) (acc : List (String × (Int × Int))),
      msgs ≠ [] →
      (∀ m ∈ msgs, m.schema = schema ∧ m.table = table) →
      ((acc.map Prod.fst) ++ msgs.map (fun m => m.chunkId)).Nodup →
      acc.length + msgs.length = N →
      processChunks chunkCounts
          [(schema ++ "." ++ table, ⟨schema, table, (N : Int), acc⟩)] msgs
        = ([], [⟨schema, table,
            (acc.map (fun p => p.2.1)).sum + (msgs.map (fun m => m.rowCount)).sum,
            (acc.map (fun p => p.2.2)).sum + (msgs.map (fun m => m.tokenCount)).sum⟩])
  | [], _, hne, _, _, _ => absurd rfl hne
  | m :: rest, acc, _, hmem, hnodup, hlen => by
    obtain ⟨hms, hmt⟩ := hmem m (List.mem_cons_self m rest)
    have hany : (acc.any (fun p => p.1 == m.chunkId)) = false := by
      rw [List.nodup_append] at hnodup
      simp only [List.any_eq_false]
      intro p hp
      simp only [beq_iff_eq]
      intro heq
      exact hnodup.2.2 (List.mem_map_of_mem Prod.fst hp) (by rw [heq]; simp)
    cases rest with
    | nil =>
      have hN : (acc.length : Int) + 1 = (N : Int) := by
        simp only [List.length_cons, List.length_nil] at hlen
        exact_mod_cast hlen
      rw [processChunks,
        handleChunkResult_emit chunkCounts schema table _ acc m hms hmt hany hN,
        processChunks]
      simp
    | cons m₂ rest₂ =>
      have hlt : (acc.length : Int) + 1 ≠ (N : Int) := by
        simp only [List.length_cons] at hlen
        intro hcast
        have : acc.length + 1 = N := by exact_mod_cast hcast
        omega
      rw [processChunks,
        handleChunkResult_cont chunkCounts schema table _ acc m hms hmt hany hlt]
      have hrec := processChunks_complete chunkCounts schema table N (m₂ :: rest₂)
        (acc ++ [chunkEntry m]) (by simp)
        (fun x hx => hmem x (List.mem_cons_of_mem m hx))
        (by
          simp only [List.map_append, List.map_cons, chunkEntry] at hnodup ⊢
          rw [List.append_assoc]
          simpa using hnodup)
        (by simp at hlen ⊢; omega)
      rw [hrec]
      simp [chunkEntry, List.map_append, List.sum_append, add_assoc]

theorem processChunks_incomplete (chunkCounts : List (String × Int)) (schema table : String)
    (N : Nat) :
    ∀ (msgs : List ChunkResultMsg) (acc : List (String × (Int × Int))),
      (∀ m ∈ msgs, m.schema = schema ∧ m.table = table) →
      ((acc.map Prod.fst) ++ msgs.map (fun m => m.chunkId)).Nodup →
      acc.length + msgs.length < N →
      processChunks chunkCounts
          [(schema ++ "." ++ table, ⟨schema, table, (N : Int), acc⟩)] msgs
        = ([(schema ++ "." ++ table,
             ⟨schema, table, (N : Int), acc ++ msgs.map chunkEntry⟩)], [])
  | [], acc, _, _, _ => by rw [processChunks]; simp
  | m :: rest, acc, hmem, hnodup, hlen => by
    obtain ⟨hms, hmt⟩ := hmem m (List.mem_cons_self m rest)
    have hany : (acc.any (fun p => p.1 == m.chunkId)) = false := by
      rw [List.nodup_append] at hnodup
      simp only [List.any_eq_false]
      intro p hp
      simp only [beq_iff_eq]
      intro heq
      exact hnodup.2.2 (List.mem_map_of_mem Prod.fst hp) (by rw [heq]; simp)
    have hlt : (acc.length : Int) + 1 ≠ (N : Int) := by
      simp only [List.length_cons] at hlen
      intro hcast
      have : acc.length + 1 = N := by exact_mod_cast hcast
      omega
    rw [processChunks,
      handleChunkResult_cont chunkCounts schema table _ acc m hms hmt hany hlt]
    have hrec := processChunks_incomplete chunkCounts schema table N rest
      (acc ++ [chunkEntry m])
      (fun x hx => hmem x (List.mem_cons_of_mem m hx))
      (by
        simp only [List.map_append, List.map_cons, chunkEntry] at hnodup ⊢
        rw [List.append_assoc]
        simpa using hnodup)
      (by simp at hlen ⊢; omega)
    rw [hrec]
    simp

theorem processChunks_start (cc : List (String × Int)) (m : ChunkResultMsg)
    (rest : List ChunkResultMsg) :
    processChunks cc [] (m :: rest)
      = processChunks cc
          [(m.schema ++ "." ++ m.table,
            ⟨m.schema, m.table, (jsMapGet cc (m.schema ++ "." ++ m.table)).getD 1, []⟩)]
          (m :: rest) := by
  rw [processChunks, processChunks]
  have : handleChunkResult cc [] m
      = handleChunkResult cc
          [(m.schema ++ "." ++ m.table,
            ⟨m.schema, m.table, (jsMapGet cc (m.schema ++ "." ++ m.table)).getD 1, []⟩)] m := by
    simp [handleChunkResult, jsMapGet, jsMapSet, jsMapDelete]
  rw [this]

/-- The full run of the coordinator on the chunk results of one table,
starting from an empty aggregator map: a single table-complete aggregate is
emitted, carrying the summed row and token counts, and the aggregator entry
is discarded. -/
theorem processChunks_run (chunkCounts : List (String × Int)) (schema table : String)
    (msgs : List ChunkResultMsg)
    (hcc : jsMapGet chunkCounts (schema ++ "." ++ table) = some ((msgs.length : Nat) : Int))
    (hmem : ∀ m ∈ msgs, m.schema = schema ∧ m.table = table)
    (hnodup : (msgs.map (fun m => m.chunkId)).Nodup)
    (hne : msgs ≠ []) :
    processChunks chunkCounts [] msgs
      = ([], [⟨schema, table, (msgs.map (fun m => m.rowCount)).sum,
              (msgs.map (fun m => m.tokenCount)).sum⟩]) := by
  cases msgs with
  | nil => exact absurd rfl hne
  | cons m rest =>
    obtain ⟨hms, hmt⟩ := hmem m (List.mem_cons_self m rest)
    rw [processChunks_start]
    rw [hms, hmt]
    rw [hcc]
    have := processChunks_complete chunkCounts schema table (m :: rest).length
      (m :: rest) [] (by simp) hmem (by simpa using hnodup) (by simp)
    simp only [Option.getD_some] at this ⊢
    rw [this]
    simp

/-- C3: for a table whose expected chunk count (recorded at queue
construction) equals the number N of its distinct chunk results, and for
every arrival order of those results, the coordinator emits the
table-complete aggregate exactly once — only at the N-th arrival, never on
a proper prefix — with `rowCount` and `tokenCount` equal to the sums of the
individual chunk results, the aggregator entry is discarded afterwards, and
the emitted aggregate is independent of the chunk arrival order. -/
theorem handleChunkResult_aggregation (chunkCounts : List (String × Int))
    (schema table : String) (msgs : List ChunkResultMsg)
    (hcc : jsMapGet chunkCounts (schema ++ "." ++ table) = some ((msgs.length : Nat) : Int))
    (hmem : ∀ m ∈ msgs, m.schema = schema ∧ m.table = table)
    (hnodup : (msgs.map (fun m => m.chunkId)).Nodup)
    (hne : msgs ≠ []) :
    (processChunks chunkCounts [] msgs).2
      = [⟨schema, table, (msgs.map (fun m => m.rowCount)).sum,
          (msgs.map (fun m => m.tokenCount)).sum⟩] ∧
    (processChunks chunkCounts [] msgs).1 = [] ∧
    (∀ k, k < msgs.length → (processChunks chunkCounts [] (msgs.take k)).2 = []) ∧
    (∀ msgs', msgs.Perm msgs' →
      (processChunks chunkCounts [] msgs').2 = (processChunks chunkCounts [] msgs).2) := by
  have hrun := processChunks_run chunkCounts schema table msgs hcc hmem hnodup hne
  refine ⟨by rw [hrun], by rw [hrun], ?_, ?_⟩
  · intro k hk
    cases hk0 : k with
    | zero => rfl
    | succ j =>
      subst hk0
      cases msgs with
      | nil => exact absurd rfl hne
      | cons m rest =>
        obtain ⟨hms, hmt⟩ := hmem m (List.mem_cons_self m rest)
        rw [List.take_succ_cons, processChunks_start, hms, hmt, hcc]
        have hsub : (m :: rest.take j).Sublist (m :: rest) :=
          List.Sublist.cons₂ m (List.take_sublist j rest)
        have hinc := processChunks_incomplete chunkCounts schema table
          (m :: rest).length (m :: rest.take j) []
          (fun x hx => hmem x (hsub.mem hx))
          (by
            simp only [List.map_nil, List.nil_append]
            exact hnodup.sublist (hsub.map (fun m => m.chunkId)))
          (by
            simp only [List.length_nil, List.length_cons, List.length_take]
            simp only [List.length_cons] at hk
            omega)
        simp only [Option.getD_some]
        rw [hinc]
  · intro msgs' hp
    have hrun' := processChunks_run chunkCounts schema table msgs'
      (by rw [← hp.length_eq]; exact hcc)
      (fun m hm => hmem m (hp.mem_iff.mpr hm))
      (((hp.map (fun m => m.chunkId)).nodup_iff).mp hnodup)
      (by
        intro h0
        subst h0
        exact hne (List.perm_nil.mp hp))
    rw [hrun, hrun']
    have h1 : (msgs'.map (fun m => m.rowCount)).sum
        = (msgs.map (fun m => m.rowCount)).sum :=
      ((hp.map (fun m => m.rowCount)).sum_eq).symm
    have h2 : (msgs'.map (fun m => m.tokenCount)).sum
        = (msgs.map (fun m => m.tokenCount)).sum :=
      ((hp.map (fun m => m.tokenCount)).sum_eq).symm
    rw [h1, h2]

theorem handleChunkResult_aggregation_witness :
    (processChunks [("public.users", 2)] []
        [⟨"public", "users", "public.users#0", 10, 100⟩,
         ⟨"public", "users", "public.users#1", 20, 200⟩]).2
      = [⟨"public", "users", 30, 300⟩] :=
  (handleChunkResult_aggregation [("public.users", 2)] "public" "users"
    [⟨"public", "users", "public.users#0", 10, 100⟩,
     ⟨"public", "users", "public.users#1", 20, 200⟩]
    (by decide) (by decide) (by decide) (by decide)).1

end DbSync
